import Mathlib

/-!
Verification of the AI-Habit-Tracker repository's algorithmic core against its
specification: streak calculation (`backend/database.py`, `get_streak_data`),
completion statistics (`frontend/dashboard.py`, `render_statistics_view`),
the completion-log upsert and habit deletion (`backend/database.py`), the habit
recommender and optimal-time suggestion (`backend/ml_engine.py`), and user
creation (`backend/database.py`, `create_user`).

Dates are modelled as integers counting days (the Python code works on
`datetime.date` values and only ever takes whole-day differences), clock times
as `HH:MM` strings parsed to (hour, minute) pairs, and database tables as lists
of record structures.
-/

/-! ## Streak calculator (`get_streak_data`, database.py lines 384-436) -/

/-- Python's `max` over a non-empty list, written as `max(log_dates)` in the
source: fold of binary `max` with the head as the accumulator seed. -/
def pyMax : ℤ → List ℤ → ℤ
  | a, [] => a
  | a, b :: r => pyMax (max a b) r

/-- The backward scan of the current-streak loop
(`for i in range(len(log_dates) - 1, 0, -1)`): counts how many consecutive
index steps down from `i` have `log_dates[i] - log_dates[i-1] == 1`, stopping
at the first gap (`break`). -/
def backRun (l : List ℤ) : ℕ → ℕ
  | 0 => 0
  | i + 1 => if l.getD (i + 1) 0 - l.getD i 0 = 1 then 1 + backRun l i else 0

/-- The max-streak loop of `get_streak_data`: walks the ascending date list
keeping `current_run` and `max_streak`, incrementing the run on a 1-day gap,
otherwise flushing the run into the maximum and resetting to 1; the final
`max(max_streak, current_run)` is the `[]` case. -/
def maxStreakAux : List ℤ → ℤ → ℕ → ℕ → ℕ
  | [], _, run, mx => max mx run
  | d :: rest, prev, run, mx =>
    if d - prev = 1 then maxStreakAux rest d (run + 1) mx
    else maxStreakAux rest d 1 (max mx run)

/-- `get_streak_data(user_id, habit_id)` after the SQL fetch: the argument is
the ascending-sorted list of completed dates for the habit (the query orders
by date), `today` is `datetime.now().date()`. Returns
`(current_streak, max_streak)`. -/
def get_streak_data (today : ℤ) (log_dates : List ℤ) : ℕ × ℕ :=
  match log_dates with
  | [] => (0, 0)
  | d :: rest =>
    let most_recent_date := pyMax d rest
    let current_streak :=
      if today - most_recent_date ≤ 1 then
        1 + backRun (d :: rest) ((d :: rest).length - 1)
      else 0
    (current_streak, maxStreakAux rest d 1 0)

/-- Specification-side: length of the run of consecutive (+1-step) dates that
extends a given previous date at the front of the list, not counting the
previous date itself. -/
def chainExt : ℤ → List ℤ → ℕ
  | _, [] => 0
  | d, e :: rest => if e - d = 1 then 1 + chainExt e rest else 0

/-- Specification-side: the length of the longest run of dates in which each
successive date is exactly 1 day after the previous, taken over all starting
positions in the list. -/
def maxRun : List ℤ → ℕ
  | [] => 0
  | d :: rest => max (1 + chainExt d rest) (maxRun rest)

/-- Specification-side: the number of consecutive backward steps from the head
of the list in which adjacent entries differ by exactly 1 day (the list is
meant to be the completed dates most-recent-first). -/
def backCount : List ℤ → ℕ
  | a :: b :: rest => if a - b = 1 then 1 + backCount (b :: rest) else 0
  | _ => 0

/-- Specification-side: a gapless block of `n` consecutive dates starting at
`a`. -/
def consecList : ℤ → ℕ → List ℤ
  | _, 0 => []
  | a, n + 1 => a :: consecList (a + 1) n

/-! ## Stats aggregator (`render_statistics_view`, dashboard.py lines 234-259) -/

/-- The per-habit completion percentage of the statistics view:
`completion_rate = (logged_days / total_days) * 100` where
`logged_days = len(logs)` and `total_days = (end_date - start_date).days + 1`.
Python's `/` on these quantities is exact rational arithmetic here. -/
def completion_rate (logged_days : ℕ) (total_days : ℕ) : ℚ :=
  (logged_days : ℚ) / (total_days : ℚ) * 100

/-! ## Completion log: upsert and deletion (database.py) -/

/-- One row of the `habit_tracking` table. -/
structure LogRow where
  tracking_id : ℕ
  habit_id : ℕ
  user_id : String
  date : String
  completed : ℤ
  actual_time : Option String
  deriving DecidableEq, Repr

/-- The `habit_tracking` table together with the next AUTOINCREMENT id. -/
structure TrackingTable where
  rows : List LogRow
  next_id : ℕ
  deriving DecidableEq, Repr

/-- The natural key a completion-log write upserts by. -/
def logKey (r : LogRow) : ℕ × String × String :=
  (r.habit_id, r.user_id, r.date)

/-- The WHERE clause `habit_id = ? AND user_id = ? AND date = ?`. -/
def keyMatches (habit_id : ℕ) (user_id : String) (date : String) (r : LogRow) : Bool :=
  r.habit_id == habit_id && r.user_id == user_id && r.date == date

/-- `SELECT tracking_id FROM habit_tracking WHERE habit_id = ? AND user_id = ?
AND date = ?` followed by `fetchone()`: the first matching row, if any. -/
def find_log (rows : List LogRow) (habit_id : ℕ) (user_id : String) (date : String) :
    Option LogRow :=
  rows.find? (keyMatches habit_id user_id date)

/-- The `UPDATE habit_tracking SET completed = ?, actual_time = ? WHERE
tracking_id = ?` statement, applied to one row. -/
def updateRow (tid : ℕ) (completed : ℤ) (actual_time : Option String) (r : LogRow) : LogRow :=
  if r.tracking_id == tid then { r with completed := completed, actual_time := actual_time }
  else r

/-- `add_habit_log(user_id, habit_id, date, completed, actual_time)`
(database.py lines 292-329): looks the (habit, user, date) key up; if a row
exists it is updated in place, otherwise a fresh row is inserted. `completed`
is stored as `1 if completed else 0`. -/
def add_habit_log (tbl : TrackingTable) (user_id : String) (habit_id : ℕ) (date : String)
    (completed : Bool) (actual_time : Option String) : TrackingTable :=
  match find_log tbl.rows habit_id user_id date with
  | some existing_log =>
    { tbl with
        rows := tbl.rows.map
          (updateRow existing_log.tracking_id (if completed then 1 else 0) actual_time) }
  | none =>
    { rows := tbl.rows ++
        [{ tracking_id := tbl.next_id, habit_id := habit_id, user_id := user_id,
           date := date, completed := if completed then 1 else 0,
           actual_time := actual_time }],
      next_id := tbl.next_id + 1 }

/-- `Database.track_habit(habit_id, user_id, completed, actual_time)`
(database.py lines 691-718): same read-then-write upsert keyed on today's
date, storing `completed` as passed. -/
def track_habit (tbl : TrackingTable) (habit_id : ℕ) (user_id : String) (today : String)
    (completed : ℤ) (actual_time : Option String) : TrackingTable :=
  match find_log tbl.rows habit_id user_id today with
  | some existing_entry =>
    { tbl with
        rows := tbl.rows.map (updateRow existing_entry.tracking_id completed actual_time) }
  | none =>
    { rows := tbl.rows ++
        [{ tracking_id := tbl.next_id, habit_id := habit_id, user_id := user_id,
           date := today, completed := completed, actual_time := actual_time }],
      next_id := tbl.next_id + 1 }

/-- The at-most-one-entry-per-(habit, user, date) invariant: pairwise distinct
natural keys. -/
def KeyUnique (rows : List LogRow) : Prop :=
  rows.Pairwise (fun r s => logKey r ≠ logKey s)

/-- One row of the `habits` table (only the fields deletion touches). -/
structure HabitRow where
  habit_id : ℕ
  user_id : String
  deriving DecidableEq, Repr

/-- The slice of database state habit deletion works on. -/
structure AppDB where
  habits : List HabitRow
  tracking : List LogRow
  deriving DecidableEq, Repr

/-- Module-level `delete_habit(habit_id)` (database.py lines 258-273): deletes
the habit's tracking rows first, then the habit row; returns whether the last
DELETE (on `habits`) removed anything. -/
def delete_habit (db : AppDB) (habit_id : ℕ) : AppDB × Bool :=
  let tracking2 := db.tracking.filter (fun r => !(r.habit_id == habit_id))
  let habits2 := db.habits.filter (fun h => !(h.habit_id == habit_id))
  (⟨habits2, tracking2⟩, decide (habits2.length < db.habits.length))

/-- `Database.delete_habit(habit_id)` (database.py lines 684-689): deletes the
habit row, then its tracking rows; returns whether the last DELETE (on
`habit_tracking`) removed anything. -/
def Database.delete_habit (db : AppDB) (habit_id : ℕ) : AppDB × Bool :=
  let habits2 := db.habits.filter (fun h => !(h.habit_id == habit_id))
  let tracking2 := db.tracking.filter (fun r => !(r.habit_id == habit_id))
  (⟨habits2, tracking2⟩, decide (tracking2.length < db.tracking.length))

/-- `get_habit_logs(user_id, habit_id, date, start_date, end_date)`
(database.py lines 331-376): all rows of `habit_tracking` matching the user
and habit, optionally restricted to one date or a BETWEEN range. -/
def get_habit_logs (rows : List LogRow) (user_id : String) (habit_id : ℕ)
    (date : Option String) (dateRange : Option (String × String)) : List LogRow :=
  rows.filter (fun r =>
    r.user_id == user_id && r.habit_id == habit_id
    && (match date with
        | some d => r.date == d
        | none => true)
    && (match dateRange with
        | some (s, e) => decide (s ≤ r.date) && decide (r.date ≤ e)
        | none => true))

/-! ## Optimal-time recommendation (`recommend_optimal_time`, ml_engine.py
lines 245-291) -/

/-- One entry of the tracking data handed to the recommender (the fields it
reads). -/
structure TrackEntry where
  completed : Bool
  actual_time : Option String
  deriving DecidableEq, Repr

/-- The character for a single decimal digit. -/
def digitChar (n : ℕ) : Char := Char.ofNat (48 + n)

/-- Value of a digit string, as `strptime`'s number reading produces it. -/
def digitsVal (ds : List Char) : ℕ := ds.foldl (fun a c => 10 * a + (c.toNat - 48)) 0

/-- `datetime.strptime(s, '%H:%M').time()`: one or two digits for the hour
(0-23), a colon, one or two digits for the minute (0-59), nothing else; `none`
models the `ValueError` raised on any other input. -/
def parse_hm (s : String) : Option (ℕ × ℕ) :=
  let cs := s.toList
  let p1 := cs.span (·.isDigit)
  match p1.2 with
  | ':' :: rest2 =>
    let p2 := rest2.span (·.isDigit)
    if p1.1.length = 0 ∨ 2 < p1.1.length ∨ p2.1.length = 0 ∨ 2 < p2.1.length ∨ p2.2 ≠ []
    then none
    else
      let h := digitsVal p1.1
      let m := digitsVal p2.1
      if h ≤ 23 ∧ m ≤ 59 then some (h, m) else none
  | _ => none

/-- Python's `f"{n:02d}"` for a non-negative value: two-digit zero padding. -/
def fmt2 (n : ℕ) : String :=
  if n < 10 then String.mk ['0', digitChar n]
  else if n < 100 then String.mk [digitChar (n / 10), digitChar (n % 10)]
  else Nat.repr n

/-- The list-comprehension filter building `actual_times`: keeps
`entry['actual_time']` when `entry['completed'] and entry['actual_time']` is
truthy (a non-None, non-empty string). -/
def truthyTime (e : TrackEntry) : Option String :=
  match e.actual_time with
  | some s => if e.completed && !(s == "") then some s else none
  | none => none

/-- `recommend_optimal_time(tracking_data, current_selected_time)`
(ml_engine.py lines 245-291). `some t` is a normal return of `t`; `none`
models an uncaught `ValueError` from parsing `current_selected_time`. The
average is taken in seconds with integer division, exactly as the source
does. -/
def recommend_optimal_time (tracking_data : List TrackEntry)
    (current_selected_time : String) : Option String :=
  if tracking_data.length < 3 then some current_selected_time
  else
    let actual_times := tracking_data.filterMap truthyTime
    if actual_times.isEmpty then some current_selected_time
    else
      let time_objects := actual_times.filterMap parse_hm
      if time_objects.isEmpty then some current_selected_time
      else
        let total_seconds := (time_objects.map (fun t => t.1 * 3600 + t.2 * 60)).sum
        let avg_seconds := total_seconds / time_objects.length
        let avg_hours := avg_seconds / 3600
        let avg_minutes := avg_seconds % 3600 / 60
        let recommended_time := fmt2 avg_hours ++ ":" ++ fmt2 avg_minutes
        match parse_hm current_selected_time, parse_hm recommended_time with
        | some cur_t, some rec_t =>
          let current_seconds := cur_t.1 * 3600 + cur_t.2 * 60
          let recommended_seconds := rec_t.1 * 3600 + rec_t.2 * 60
          if 7200 < ((current_seconds : ℤ) - (recommended_seconds : ℤ)).natAbs
          then some recommended_time
          else some current_selected_time
        | _, _ => none

/-- Specification-side: the parsed (hour, minute) of an entry that counts as a
data point — a completed entry whose actual time is present and well-formed. -/
def goodTime (e : TrackEntry) : Option (ℕ × ℕ) :=
  if e.completed then e.actual_time.bind parse_hm else none

/-- Specification-side: the minutes-since-midnight values of all data points
of the tracking data. -/
def goodMinutes (td : List TrackEntry) : List ℕ :=
  (td.filterMap goodTime).map (fun p => p.1 * 60 + p.2)

/-! ## Catalog recommender (`recommend_habits`, ml_engine.py lines 182-243) -/

/-- One row of the habits catalog (the columns the filter-and-rank logic
reads). -/
structure CatHabit where
  category : String
  time_required : String
  deriving DecidableEq, Repr

/-- Python's `str.split(sep)` for a one-character separator. -/
def splitOnChar (sep : Char) (cs : List Char) : List (List Char) :=
  cs.foldr
    (fun c acc =>
      if c = sep then [] :: acc
      else
        match acc with
        | a :: rest => (c :: a) :: rest
        | [] => [[c]])
    [[]]

/-- Python's `str.strip()` restricted to spaces (the only whitespace the
survey strings carry). -/
def stripSpaces (cs : List Char) : List Char :=
  ((cs.dropWhile (· = ' ')).reverse.dropWhile (· = ' ')).reverse

/-- Python's whitespace `str.split()`: split on space runs, dropping empty
pieces. -/
def splitWs (cs : List Char) : List (List Char) :=
  (splitOnChar ' ' cs).filter (· ≠ [])

/-- Python's `int(s)` on the numeric tokens the catalog uses: all-digit
strings; `none` models the `ValueError` on anything else. -/
def pyInt? (cs : List Char) : Option ℕ :=
  if cs ≠ [] ∧ cs.all (·.isDigit) then some (digitsVal cs) else none

/-- The `min_time` lambda of ml_engine.py lines 221-223:
`int(x.split('-')[0].split()[0]) if '-' in x else int(x.split()[0])`. -/
def min_time_of (x : String) : Option ℕ :=
  let cs := x.toList
  if cs.any (· = '-') then
    match splitWs ((splitOnChar '-' cs).headD []) with
    | t :: _ => pyInt? t
    | [] => none
  else
    match splitWs cs with
    | t :: _ => pyInt? t
    | [] => none

/-- The keys of `category_mapping` (an identity mapping on these five
improvement-area categories). -/
def categoryKeys : List String :=
  ["Физическое здоровье", "Ментальное здоровье", "Продуктивность", "Финансы", "Отношения"]

/-- Lines 190-218: split the user's improvement areas on commas, strip them,
keep those present in `category_mapping`, and filter the catalog (a DataFrame,
modelled with its integer row index) to rows in those categories. -/
def filteredByCat (catalog : List CatHabit) (improvement_areas : String) :
    List (ℕ × CatHabit) :=
  let areas := (splitOnChar ',' improvement_areas.toList).map (fun a => String.mk (stripSpaces a))
  let filtered_categories := areas.filter (fun a => categoryKeys.contains a)
  catalog.enum.filter (fun p => filtered_categories.contains p.2.category)

/-- Lines 221-223: the `.apply` computing the `min_time` column; a row whose
`time_required` does not parse raises `ValueError` (`none`). -/
def withMinTimes : List (ℕ × CatHabit) → Option (List (ℕ × CatHabit × ℕ))
  | [] => some []
  | p :: rest =>
    match min_time_of p.2.time_required, withMinTimes rest with
    | some mt, some rest2 => some ((p.1, p.2, mt) :: rest2)
    | _, _ => none

/-- Lines 218-226: the candidates surviving the category filter and the
`min_time <= time_mins + 5` filter, each carrying its catalog index and parsed
minimum minutes. -/
def timeFiltered (catalog : List CatHabit) (improvement_areas : String) (time_mins : ℕ) :
    Option (List (ℕ × CatHabit × ℕ)) :=
  (withMinTimes (filteredByCat catalog improvement_areas)).map
    (fun l => l.filter (fun q => q.2.2 ≤ time_mins + 5))

/-- The `time_diff` column: `abs(min_time - time_mins)` on Python ints. -/
def tdiff (time_mins : ℕ) (q : ℕ × CatHabit × ℕ) : ℕ :=
  ((q.2.2 : ℤ) - (time_mins : ℤ)).natAbs

/-- `recommend_habits` from the category filter on (ml_engine.py lines
206-243), with the user's committed minutes already extracted from
`time_commitment` (lines 195-204 run before this slice). `sort_values` on the
`time_diff` column is modelled by a stable insertion sort, matching the
observed tie order of the library sort on these frames. Returns `none` when
the call raises: a `ValueError` from `int()` on a malformed `time_required`,
or — whenever the time-filtered set is empty — the `KeyError` at line 237:
both fallback branches (lines 229-234) rebind `filtered_habits` to a slice of
the raw catalog, which does not carry the `min_time` column that line 237
reads (that column was added only to the category-filtered copy). -/
def recommend_habits (catalog : List CatHabit) (improvement_areas : String)
    (time_mins : ℕ) (n_recommendations : ℕ) : Option (List CatHabit) :=
  match timeFiltered catalog improvement_areas time_mins with
  | none => none
  | some filtered2 =>
    if filtered2.length = 0 then none
    else
      let sorted :=
        List.insertionSort (fun a b => tdiff time_mins a ≤ tdiff time_mins b) filtered2
      some ((sorted.take n_recommendations).map (fun q => q.2.1))

/-- A prefix test on character lists (Boolean). -/
def leadsWith : List Char → List Char → Bool
  | [], _ => true
  | _ :: _, [] => false
  | p :: ps, c :: cs => p == c && leadsWith ps cs

/-- Substring containment, as pandas `str.contains` with a plain (non-regex,
no-metacharacter) needle behaves on line 230. -/
def containsSub (pat : List Char) : List Char → Bool
  | [] => pat.isEmpty
  | c :: t => leadsWith pat (c :: t) || containsSub pat t

/-- Decimal rendering of a natural number (the f-string `f"{time_mins}"` of
line 230), with a fuel argument for structural termination. -/
def natToCharsAux : ℕ → ℕ → List Char → List Char
  | 0, _, acc => acc
  | fuel + 1, n, acc =>
    if n < 10 then digitChar n :: acc
    else natToCharsAux fuel (n / 10) (digitChar (n % 10) :: acc)

/-- Decimal rendering of a natural number. -/
def natToChars (n : ℕ) : List Char := natToCharsAux (n + 1) n []

/-! ## User creation (`create_user`, database.py lines 63-89) -/

/-- The two sqlite3 exception kinds relevant to `create_user`. -/
inductive SqliteError where
  | integrity
  | operational
  deriving DecidableEq, Repr

/-- Columns of the `users` table created by `initialize_database`
(database.py lines 16-27) — the schema in force in the application, since
`app.py` calls `initialize_database()` at startup and nothing instantiates the
`Database` class. -/
def moduleUsersColumns : List String :=
  ["id", "username", "email", "password_hash", "full_name", "bio",
   "notification_settings", "created_at"]

/-- The column list of `create_user`'s INSERT statement
(database.py lines 78-81). -/
def createUserInsertColumns : List String :=
  ["user_id", "name", "age", "gender", "registration_date"]

/-- An INSERT into `users`: sqlite raises `OperationalError` at prepare time
when the statement names a column absent from the table, and
`IntegrityError` when a uniqueness constraint is violated. -/
def executeInsertUsers (tableCols : List String) (insertCols : List String)
    (uniqueViolated : Bool) : Except SqliteError Unit :=
  if insertCols.all (fun c => tableCols.contains c) then
    if uniqueViolated then .error .integrity else .ok ()
  else .error .operational

/-- `create_user(username, email, password)` (database.py lines 63-89):
`existingUsernames` is the state of the unique username column, `user_id` the
generated uuid. `.ok (some id)` is a successful insert, `.ok none` the caught
`IntegrityError` path returning `None`, `.error e` an uncaught exception. -/
def create_user (existingUsernames : List String) (username : String) (user_id : String) :
    Except SqliteError (Option String) :=
  match executeInsertUsers moduleUsersColumns createUserInsertColumns
      (existingUsernames.contains username) with
  | .ok () => .ok (some user_id)
  | .error .integrity => .ok none
  | .error .operational => .error .operational

/-! ## Concrete fixtures used by the claims' example instances -/

/-- Catalog with candidate minimum times 5, 10 and 20 minutes, all in one
category (the C7 example). -/
def catalogC7 : List CatHabit :=
  [⟨"Продуктивность", "5 минут"⟩, ⟨"Продуктивность", "10 минут"⟩,
   ⟨"Продуктивность", "20 минут"⟩]

/-- Catalog whose single row matches no improvement-area category but whose
time text contains "10" (the C8 fallback scenario). -/
def catalogC8 : List CatHabit := [⟨"Финансы", "10 минут"⟩]

/-- Tracking data with actual times 08:00, 08:10, 07:50, all completed (the
C6 example). -/
def tdC6 : List TrackEntry :=
  [⟨true, some "08:00"⟩, ⟨true, some "08:10"⟩, ⟨true, some "07:50"⟩]

/-- Three tracking entries of which only two are completed with a non-null
actual time (the C9 counterexample). -/
def tdC9 : List TrackEntry :=
  [⟨true, some "03:00"⟩, ⟨true, some "03:10"⟩, ⟨false, none⟩]
theorem maxStreakAux_eq (l : List ℤ) : ∀ (prev : ℤ) (run mx : ℕ),
    maxStreakAux l prev run mx = max mx (max (run + chainExt prev l) (maxRun l)) := by
  induction l with
  | nil => intro prev run mx; simp [maxStreakAux, chainExt, maxRun]
  | cons d rest ih =>
    intro prev run mx
    by_cases h : d - prev = 1
    · simp only [maxStreakAux, chainExt, maxRun, if_pos h]
      rw [ih]
      omega
    · simp only [maxStreakAux, chainExt, maxRun, if_neg h]
      rw [ih]
      omega

theorem chainExt_le (d : ℤ) (l : List ℤ) : chainExt d l ≤ l.length := by
  induction l generalizing d with
  | nil => simp [chainExt]
  | cons e rest ih =>
    simp only [chainExt, List.length_cons]
    split
    · have := ih e; omega
    · omega

theorem maxRun_le_length (l : List ℤ) : maxRun l ≤ l.length := by
  induction l with
  | nil => simp [maxRun]
  | cons d rest ih =>
    simp only [maxRun, List.length_cons]
    have := chainExt_le d rest
    omega

theorem get_streak_max_eq_maxRun (t d : ℤ) (rest : List ℤ) :
    (get_streak_data t (d :: rest)).2 = maxRun (d :: rest) := by
  simp only [get_streak_data, maxStreakAux_eq, maxRun]
  omega

theorem consecList_length (a : ℤ) (n : ℕ) : (consecList a n).length = n := by
  induction n generalizing a with
  | zero => simp [consecList]
  | succ m ih => simp [consecList, ih]

theorem chainExt_consecList (a : ℤ) (n : ℕ) : chainExt a (consecList (a + 1) n) = n := by
  induction n generalizing a with
  | zero => simp [consecList, chainExt]
  | succ m ih =>
    simp only [consecList, chainExt]
    rw [if_pos (by ring), ih (a + 1)]
    omega

/-- Claim C1: for any non-empty ascending list of distinct completed dates,
`get_streak_data` returns `max_streak` equal to the length of the longest run
of dates in which each successive date is exactly 1 day after the previous
(`maxRun`); a gapless block of `n` dates yields `max_streak = n`, and the
dates `D, D+1, D+3, D+4` yield `max_streak = 2`. -/
theorem C1_max_streak (t : ℤ) (l : List ℤ) (h1 : l ≠ []) (h2 : l.Sorted (· < ·))
    (a D : ℤ) (n : ℕ) (hn : 0 < n) :
    (get_streak_data t l).2 = maxRun l
    ∧ (get_streak_data t (consecList a n)).2 = n
    ∧ (get_streak_data t [D, D + 1, D + 3, D + 4]).2 = 2 := by
  refine ⟨?_, ?_, ?_⟩
  · match l with
    | d :: rest => exact get_streak_max_eq_maxRun t d rest
  · obtain ⟨m, rfl⟩ : ∃ m, n = m + 1 := ⟨n - 1, by omega⟩
    show (get_streak_data t (a :: consecList (a + 1) m)).2 = m + 1
    rw [get_streak_max_eq_maxRun]
    simp only [maxRun]
    have h3 := chainExt_consecList a m
    have h4 := maxRun_le_length (consecList (a + 1) m)
    rw [consecList_length] at h4
    omega
  · rw [get_streak_max_eq_maxRun]
    have e1 : D + 1 - D = 1 := by ring
    have e2 : ¬(D + 3 - (D + 1) = 1) := by omega
    have e3 : D + 4 - (D + 3) = 1 := by ring
    simp [maxRun, chainExt, e1, e2, e3]

theorem C1_witness :
    (get_streak_data 0 [1, 2, 4, 5]).2 = maxRun [1, 2, 4, 5]
    ∧ (get_streak_data 0 (consecList 7 3)).2 = 3
    ∧ (get_streak_data 0 [0, 0 + 1, 0 + 3, 0 + 4]).2 = 2 :=
  C1_max_streak 0 [1, 2, 4, 5] (by decide) (by decide) 7 0 3 (by decide)
theorem pyMax_sorted (d : ℤ) (rest : List ℤ) (h : (d :: rest).Sorted (· < ·)) :
    pyMax d rest = rest.getLastD d := by
  induction rest generalizing d with
  | nil => simp [pyMax]
  | cons b r ih =>
    rw [List.sorted_cons] at h
    have hdb : d < b := h.1 b (by simp)
    show pyMax (max d b) r = (b :: r).getLastD d
    rw [max_eq_right hdb.le, List.getLastD_cons]
    exact ih b h.2

theorem backRun_take (l : List ℤ) : ∀ i, i < l.length →
    backRun l i = backCount ((l.take (i + 1)).reverse) := by
  intro i
  induction i with
  | zero =>
    intro h
    match l with
    | a :: l' => simp [backRun, backCount]
  | succ i ih =>
    intro h
    have hi : i < l.length := by omega
    have t1 : l.take (i + 1 + 1) = l.take (i + 1) ++ [l[i + 1]] := by
      rw [List.take_succ, List.getElem?_eq_getElem h]
      rfl
    have t2 : l.take (i + 1) = l.take i ++ [l[i]] := by
      rw [List.take_succ, List.getElem?_eq_getElem hi]
      rfl
    rw [backRun, List.getD_eq_getElem l 0 h, List.getD_eq_getElem l 0 hi, t1]
    rw [List.reverse_append]
    conv_rhs => rw [t2, List.reverse_append]
    simp only [List.reverse_cons, List.reverse_nil, List.nil_append, List.singleton_append,
      List.cons_append]
    rw [backCount]
    rw [ih hi, t2, List.reverse_append]
    simp
/-- Claim C2: for a non-empty ascending list of distinct completed dates none
of which is after today, `get_streak_data` returns `current_streak = 0` when
today minus the most recent date exceeds 1 day, and otherwise 1 plus the
number of consecutive backward steps from the most recent date in which
adjacent dates differ by exactly 1 day (`backCount` of the reversed list); a
single completed date equal to today yields `current_streak = 1`. -/
theorem C2_current_streak (t d : ℤ) (rest : List ℤ)
    (h2 : (d :: rest).Sorted (· < ·)) (_hle : ∀ x ∈ d :: rest, x ≤ t) :
    (get_streak_data t (d :: rest)).1 =
      (if 1 < t - rest.getLastD d then 0 else 1 + backCount ((d :: rest).reverse))
    ∧ (get_streak_data t [t]).1 = 1 := by
  constructor
  · have hb : backRun (d :: rest) ((d :: rest).length - 1) =
        backCount ((d :: rest).reverse) := by
      have hlt : (d :: rest).length - 1 < (d :: rest).length := by simp
      rw [backRun_take _ _ hlt]
      have : (d :: rest).length - 1 + 1 = (d :: rest).length := by simp
      rw [this, List.take_length]
    simp only [get_streak_data, pyMax_sorted d rest h2, hb]
    rcases le_or_lt (t - rest.getLastD d) 1 with hc | hc
    · rw [if_pos hc, if_neg (by omega)]
    · rw [if_neg (by omega), if_pos hc]
  · simp [get_streak_data, pyMax, backRun, sub_self]

theorem C2_witness :
    (get_streak_data 5 [4, 5]).1 =
      (if 1 < (5 : ℤ) - [5].getLastD 4 then 0 else 1 + backCount ([4, 5].reverse))
    ∧ (get_streak_data 5 [5]).1 = 1 :=
  C2_current_streak 5 4 [5] (by decide) (by decide)
/-- Claim C3: the statistics-view completion percentage
`logged_days / total_days * 100` is monotonically non-decreasing in the number
of logged days, and for any duplicate-free set of logged dates lying inside
the window `[s, e]` (the at-most-one-entry-per-(habit, date) invariant) it
never exceeds 100. -/
theorem C3_completion_rate :
    (∀ (t m n : ℕ), m ≤ n → completion_rate m t ≤ completion_rate n t)
    ∧ (∀ (s e : ℤ) (dates : List ℤ), s ≤ e → dates.Nodup →
        (∀ d ∈ dates, s ≤ d ∧ d ≤ e) →
        completion_rate dates.length ((e - s).toNat + 1) ≤ 100) := by
  constructor
  · intro t m n hmn
    unfold completion_rate
    gcongr
  · intro s e dates hse hnd hin
    have hsub : dates.toFinset ⊆ Finset.Icc s e := by
      intro d hd
      rw [List.mem_toFinset] at hd
      rw [Finset.mem_Icc]
      exact hin d hd
    have hcard : dates.length ≤ (e - s).toNat + 1 := by
      have h1 := Finset.card_le_card hsub
      rw [List.toFinset_card_of_nodup hnd, Int.card_Icc] at h1
      omega
    unfold completion_rate
    have ht : (0 : ℚ) < ((e - s).toNat + 1 : ℕ) := by positivity
    rw [div_mul_eq_mul_div, div_le_iff₀ ht]
    have : (dates.length : ℚ) ≤ ((e - s).toNat + 1 : ℕ) := by exact_mod_cast hcard
    nlinarith

theorem C3_witness :
    completion_rate 1 30 ≤ completion_rate 2 30
    ∧ completion_rate [(3 : ℤ)].length (((29 : ℤ) - 0).toNat + 1) ≤ 100 :=
  ⟨C3_completion_rate.1 30 1 2 (by decide),
   C3_completion_rate.2 0 29 [3] (by decide) (by decide) (by decide)⟩
theorem logKey_updateRow (tid : ℕ) (c : ℤ) (at0 : Option String) (r : LogRow) :
    logKey (updateRow tid c at0 r) = logKey r := by
  unfold updateRow
  split <;> rfl

theorem keyMatches_updateRow (h : ℕ) (u dt : String) (tid : ℕ) (c : ℤ)
    (at0 : Option String) (r : LogRow) :
    keyMatches h u dt (updateRow tid c at0 r) = keyMatches h u dt r := by
  unfold updateRow keyMatches
  split <;> rfl

theorem keyUnique_map_updateRow (rows : List LogRow) (tid : ℕ) (c : ℤ)
    (at0 : Option String) (hk : KeyUnique rows) :
    KeyUnique (rows.map (updateRow tid c at0)) := by
  unfold KeyUnique at *
  rw [List.pairwise_map]
  exact hk.imp (fun {a b} hab => by simpa [logKey_updateRow] using hab)

theorem keyMatches_iff (h : ℕ) (u dt : String) (r : LogRow) :
    keyMatches h u dt r = true ↔ logKey r = (h, u, dt) := by
  simp [keyMatches, logKey, Prod.ext_iff, Bool.and_eq_true, beq_iff_eq, and_assoc]

theorem keyUnique_append_fresh (rows : List LogRow) (r : LogRow)
    (hk : KeyUnique rows) (hf : ∀ s ∈ rows, logKey s ≠ logKey r) :
    KeyUnique (rows ++ [r]) := by
  unfold KeyUnique
  rw [List.pairwise_append]
  exact ⟨hk, List.pairwise_singleton _ _, fun a ha b hb => by
    simp only [List.mem_singleton] at hb
    subst hb
    exact hf a ha⟩

theorem find_log_map_updateRow (rows : List LogRow) (h : ℕ) (u dt : String)
    (tid : ℕ) (c : ℤ) (at0 : Option String) :
    find_log (rows.map (updateRow tid c at0)) h u dt =
      (find_log rows h u dt).map (updateRow tid c at0) := by
  unfold find_log
  rw [List.find?_map]
  have he : (keyMatches h u dt ∘ updateRow tid c at0) = keyMatches h u dt := by
    funext r
    exact keyMatches_updateRow h u dt tid c at0 r
  rw [he]

/-- Claim C4: `add_habit_log` and `Database.track_habit` preserve the
at-most-one-entry-per-(habit, user, date) invariant: a write for a key that
already has a row updates that row in place (same row count, same key
multiset, the first key match now carrying the new completed flag and actual
time), and a write for a fresh key inserts exactly one row. -/
theorem C4_upsert (tbl : TrackingTable) (u : String) (h : ℕ) (dt : String)
    (c : Bool) (c2 : ℤ) (at1 at2 : Option String) (hk : KeyUnique tbl.rows) :
    KeyUnique (add_habit_log tbl u h dt c at1).rows
    ∧ KeyUnique (track_habit tbl h u dt c2 at2).rows
    ∧ (∀ ex, find_log tbl.rows h u dt = some ex →
        (add_habit_log tbl u h dt c at1).rows.length = tbl.rows.length
        ∧ (add_habit_log tbl u h dt c at1).rows.map logKey = tbl.rows.map logKey
        ∧ find_log (add_habit_log tbl u h dt c at1).rows h u dt =
            some { ex with completed := if c then 1 else 0, actual_time := at1 }
        ∧ (track_habit tbl h u dt c2 at2).rows.length = tbl.rows.length)
    ∧ (find_log tbl.rows h u dt = none →
        (add_habit_log tbl u h dt c at1).rows.length = tbl.rows.length + 1
        ∧ (track_habit tbl h u dt c2 at2).rows.length = tbl.rows.length + 1) := by
  have fresh : find_log tbl.rows h u dt = none →
      ∀ s ∈ tbl.rows, logKey s ≠ (h, u, dt) := by
    intro hn s hs
    have hnm := List.find?_eq_none.mp hn s hs
    intro heq
    exact hnm ((keyMatches_iff h u dt s).mpr heq)
  refine ⟨?_, ?_, ?_, ?_⟩
  · unfold add_habit_log
    cases hf : find_log tbl.rows h u dt with
    | some ex => exact keyUnique_map_updateRow _ _ _ _ hk
    | none =>
      apply keyUnique_append_fresh _ _ hk
      intro s hs
      simpa [logKey] using fresh hf s hs
  · unfold track_habit
    cases hf : find_log tbl.rows h u dt with
    | some ex => exact keyUnique_map_updateRow _ _ _ _ hk
    | none =>
      apply keyUnique_append_fresh _ _ hk
      intro s hs
      simpa [logKey] using fresh hf s hs
  · intro ex hf
    unfold add_habit_log track_habit
    rw [hf]
    refine ⟨by simp, ?_, ?_, by simp⟩
    · rw [List.map_map]
      congr 1
      funext r
      exact logKey_updateRow _ _ _ r
    · rw [find_log_map_updateRow, hf]
      simp [updateRow]
  · intro hf
    unfold add_habit_log track_habit
    rw [hf]
    simp

theorem C4_witness :
    KeyUnique (add_habit_log ⟨[], 0⟩ "u1" 1 "2024-01-01" true none).rows
    ∧ (add_habit_log ⟨[], 0⟩ "u1" 1 "2024-01-01" true none).rows.length =
        (⟨[], 0⟩ : TrackingTable).rows.length + 1 := by
  have h := C4_upsert ⟨[], 0⟩ "u1" 1 "2024-01-01" true 1 none none
    (List.Pairwise.nil)
  exact ⟨h.1, (h.2.2.2 rfl).1⟩
theorem tracking_filter_ne (rows : List LogRow) (hid : ℕ) :
    ∀ r ∈ rows.filter (fun r => !(r.habit_id == hid)), r.habit_id ≠ hid := by
  intro r hr
  rw [List.mem_filter] at hr
  simpa using hr.2

theorem get_habit_logs_filter_ne (rows : List LogRow) (hid : ℕ) (u : String)
    (dt : Option String) (rg : Option (String × String))
    (hne : ∀ r ∈ rows, r.habit_id ≠ hid) :
    get_habit_logs rows u hid dt rg = [] := by
  unfold get_habit_logs
  rw [List.filter_eq_nil_iff]
  intro r hr
  have : (r.habit_id == hid) = false := by
    simpa using hne r hr
  simp [this]

/-- Claim C5: after `delete_habit(habit_id)` — the module-level function or
the `Database` method — no completion-log entry with that habit id remains in
the tracking table, and `get_habit_logs` for that habit returns nothing under
every date filter: no orphan logs survive habit deletion. -/
theorem C5_delete_no_orphans (db : AppDB) (hid : ℕ) (u : String)
    (dt : Option String) (rg : Option (String × String)) :
    (∀ r ∈ (delete_habit db hid).1.tracking, r.habit_id ≠ hid)
    ∧ get_habit_logs (delete_habit db hid).1.tracking u hid dt rg = []
    ∧ (∀ r ∈ (Database.delete_habit db hid).1.tracking, r.habit_id ≠ hid)
    ∧ get_habit_logs (Database.delete_habit db hid).1.tracking u hid dt rg = [] := by
  have h1 := tracking_filter_ne db.tracking hid
  exact ⟨h1, get_habit_logs_filter_ne _ _ _ _ _ h1,
    h1, get_habit_logs_filter_ne _ _ _ _ _ h1⟩

theorem C5_witness :
    (∀ r ∈ (delete_habit ⟨[⟨7, "u1"⟩], [⟨0, 7, "u1", "2024-01-01", 1, none⟩]⟩ 7).1.tracking,
      r.habit_id ≠ 7)
    ∧ get_habit_logs
        (delete_habit ⟨[⟨7, "u1"⟩], [⟨0, 7, "u1", "2024-01-01", 1, none⟩]⟩ 7).1.tracking
        "u1" 7 none none = []
    ∧ (∀ r ∈ (Database.delete_habit
          ⟨[⟨7, "u1"⟩], [⟨0, 7, "u1", "2024-01-01", 1, none⟩]⟩ 7).1.tracking,
        r.habit_id ≠ 7)
    ∧ get_habit_logs
        (Database.delete_habit
          ⟨[⟨7, "u1"⟩], [⟨0, 7, "u1", "2024-01-01", 1, none⟩]⟩ 7).1.tracking
        "u1" 7 none none = [] :=
  C5_delete_no_orphans ⟨[⟨7, "u1"⟩], [⟨0, 7, "u1", "2024-01-01", 1, none⟩]⟩ 7 "u1" none none
set_option maxRecDepth 10000 in
theorem parse_fmt2_roundtrip : ∀ h m : ℕ, h ≤ 23 → m ≤ 59 →
    parse_hm (fmt2 h ++ ":" ++ fmt2 m) = some (h, m) := by
  have key : ∀ h < 24, ∀ m < 60, parse_hm (fmt2 h ++ ":" ++ fmt2 m) = some (h, m) := by decide
  intro h m hh hm
  exact key h (by omega) m (by omega)

theorem parse_hm_bounds (s : String) (h m : ℕ) (hp : parse_hm s = some (h, m)) :
    h ≤ 23 ∧ m ≤ 59 := by
  simp only [parse_hm] at hp
  split at hp
  · split at hp
    · exact absurd hp (by simp)
    · split at hp
      · rename_i hg
        rw [Option.some.injEq, Prod.mk.injEq] at hp
        omega
      · exact absurd hp (by simp)
  · exact absurd hp (by simp)

theorem stage_eq (td : List TrackEntry) :
    (td.filterMap truthyTime).filterMap parse_hm = td.filterMap goodTime := by
  rw [List.filterMap_filterMap]
  congr 1
  funext e
  rcases e with ⟨c, at0⟩
  cases at0 with
  | none => cases c <;> simp [truthyTime, goodTime]
  | some s =>
    cases c
    · simp [truthyTime, goodTime]
    · by_cases hs : s = ""
      · subst hs
        simp [truthyTime, goodTime]
        rfl
      · simp [truthyTime, goodTime, hs]

theorem length_filterMap_isSome {α β : Type} (f : α → Option β) (l : List α) :
    (l.filterMap f).length = (l.filter (fun a => (f a).isSome)).length := by
  induction l with
  | nil => rfl
  | cons a l ih => cases hf : f a <;> simp [List.filterMap_cons, hf, ih]

theorem goodTime_bounds (e : TrackEntry) (p : ℕ × ℕ) (hp : goodTime e = some p) :
    p.1 ≤ 23 ∧ p.2 ≤ 59 := by
  unfold goodTime at hp
  split at hp
  · rcases Option.bind_eq_some.mp hp with ⟨s, _, hparse⟩
    exact parse_hm_bounds s p.1 p.2 (by simpa using hparse)
  · exact absurd hp (by simp)

theorem goodMinutes_le (td : List TrackEntry) : ∀ x ∈ goodMinutes td, x ≤ 1439 := by
  intro x hx
  unfold goodMinutes at hx
  rw [List.mem_map] at hx
  obtain ⟨p, hp, rfl⟩ := hx
  rw [List.mem_filterMap] at hp
  obtain ⟨e, _, hg⟩ := hp
  have := goodTime_bounds e p hg
  omega
/-- Claim C6: with at least 3 data points (completed tracking entries whose
actual time is present and well-formed) and a well-formed current time,
`recommend_optimal_time` averages the data points' minutes-since-midnight
with integer division, formats the mean back to `HH:MM`, and returns it when
its absolute difference from the current preferred time exceeds 120 minutes,
otherwise returning the current time unchanged. -/
theorem C6_optimal_time (td : List TrackEntry) (cur : String) (ch cm : ℕ)
    (h3 : 3 ≤ (td.filter (fun e => (goodTime e).isSome)).length)
    (hcur : parse_hm cur = some (ch, cm)) :
    recommend_optimal_time td cur =
      some (if 120 < ((((goodMinutes td).sum / (goodMinutes td).length : ℕ) : ℤ)
                      - ((ch * 60 + cm : ℕ) : ℤ)).natAbs
            then fmt2 ((goodMinutes td).sum / (goodMinutes td).length / 60) ++ ":" ++
                 fmt2 ((goodMinutes td).sum / (goodMinutes td).length % 60)
            else cur) := by
  have hlenP : (td.filterMap goodTime).length =
      (td.filter (fun e => (goodTime e).isSome)).length := length_filterMap_isSome _ _
  have hnP : td.filterMap goodTime ≠ [] := by
    intro hnil
    rw [hnil] at hlenP
    simp at hlenP
    omega
  have hgate : ¬ td.length < 3 := by
    have := List.length_filter_le (fun e => (goodTime e).isSome) td
    omega
  have hat : (td.filterMap truthyTime).isEmpty = false := by
    rw [Bool.eq_false_iff]
    intro hemp
    rw [List.isEmpty_iff] at hemp
    apply hnP
    rw [← stage_eq, hemp]
    rfl
  have hto : (td.filterMap truthyTime).filterMap parse_hm = td.filterMap goodTime :=
    stage_eq td
  have hPo : (td.filterMap goodTime).isEmpty = false := by
    rw [Bool.eq_false_iff]
    intro hemp
    exact hnP (List.isEmpty_iff.mp hemp)
  -- abbreviations
  set P := td.filterMap goodTime with hP
  set n := P.length with hnn
  set S := (goodMinutes td).sum with hS
  set avg := S / n with havg
  have hgm_len : (goodMinutes td).length = n := by
    rw [goodMinutes, ← hP, List.length_map]
  have hn : 0 < n := by
    rw [hnn]
    exact List.length_pos.mpr hnP
  -- total seconds is 60 times total minutes
  have hsum : (P.map (fun t => t.1 * 3600 + t.2 * 60)).sum = 60 * S := by
    have hfe : (fun t : ℕ × ℕ => t.1 * 3600 + t.2 * 60) =
        (fun t : ℕ × ℕ => 60 * (t.1 * 60 + t.2)) := by
      funext t
      ring
    rw [hfe, List.sum_map_mul_left, hS, goodMinutes, ← hP]
  -- the averaged seconds collapse to the averaged minutes
  have e60 : 60 * S / n / 60 = avg := by
    rw [Nat.div_div_eq_div_mul, mul_comm n 60, ← Nat.div_div_eq_div_mul,
      Nat.mul_div_cancel_left S (by norm_num : 0 < 60)]
  have ehours : 60 * S / n / 3600 = avg / 60 := by
    have h1 : 60 * S / n / 3600 = 60 * S / n / 60 / 60 := by omega
    rw [h1, e60]
  have emins : 60 * S / n % 3600 / 60 = avg % 60 := by
    have h1 : 60 * S / n % 3600 / 60 = 60 * S / n / 60 % 60 := by omega
    rw [h1, e60]
  -- the mean stays within one day
  have hb : avg ≤ 1439 := by
    have hb1 : S ≤ 1439 * n := by
      have := List.sum_le_card_nsmul (goodMinutes td) 1439 (goodMinutes_le td)
      rw [hgm_len, smul_eq_mul] at this
      omega
    calc avg = S / n := havg
      _ ≤ 1439 * n / n := Nat.div_le_div_right hb1
      _ = 1439 := Nat.mul_div_cancel 1439 hn
  have hrt : parse_hm (fmt2 (avg / 60) ++ ":" ++ fmt2 (avg % 60)) =
      some (avg / 60, avg % 60) :=
    parse_fmt2_roundtrip _ _ (by omega) (by omega)
  -- now unfold the function and push everything through
  rw [recommend_optimal_time, if_neg hgate]
  simp only [hat, Bool.false_eq_true, if_false, hto, ← hP, hPo, hsum, ← hnn, ehours, emins,
    hcur, hrt]
  rw [hgm_len, ← havg]
  have hcond : (7200 < (((ch * 3600 + cm * 60 : ℕ) : ℤ)
        - ((avg / 60 * 3600 + avg % 60 * 60 : ℕ) : ℤ)).natAbs)
      ↔ (120 < ((avg : ℤ) - ((ch * 60 + cm : ℕ) : ℤ)).natAbs) := by
    have h1 : avg / 60 * 3600 + avg % 60 * 60 = 60 * avg := by omega
    have h2 : ch * 3600 + cm * 60 = 60 * (ch * 60 + cm) := by ring
    rw [h1, h2]
    push_cast
    omega
  by_cases hc : 120 < ((avg : ℤ) - ((ch * 60 + cm : ℕ) : ℤ)).natAbs
  · rw [if_pos (hcond.mpr hc), if_pos hc]
  · rw [if_neg (fun hx => hc (hcond.mp hx)), if_neg hc]
theorem C6_witness :
    recommend_optimal_time tdC6 "10:30" = some "08:00"
    ∧ recommend_optimal_time tdC6 "08:30" = some "08:30" := by
  constructor
  · have h := C6_optimal_time tdC6 "10:30" 10 30 (by decide) (by decide)
    rw [h]
    decide
  · have h := C6_optimal_time tdC6 "08:30" 8 30 (by decide) (by decide)
    rw [h]
    decide

/-- Claim C9, as stated, is false on the code: the insufficiency guard counts
all tracking entries (`len(tracking_data) < 3`), not the completed entries
with non-null actual times. `tdC9` carries only 2 such data points, yet with
3 total entries the guard passes and a changed time ("03:05", the mean of the
two data points) is returned instead of the unchanged "10:30". -/
theorem C9_counterexample :
    (tdC9.filter (fun e => e.completed && e.actual_time.isSome)).length < 3
    ∧ recommend_optimal_time tdC9 "10:30" = some "03:05"
    ∧ (some "03:05" : Option String) ≠ some "10:30" := by
  refine ⟨by decide, by decide, by decide⟩

/-- Claim C9 (amended): whenever fewer than 3 tracking entries in total are
available, `recommend_optimal_time` silently returns the current selected
time unchanged and never fails. -/
theorem C9_insufficient_data (td : List TrackEntry) (cur : String) (h : td.length < 3) :
    recommend_optimal_time td cur = some cur := by
  rw [recommend_optimal_time, if_pos h]

theorem C9_witness : recommend_optimal_time [] "07:15" = some "07:15" :=
  C9_insufficient_data [] "07:15" (by decide)
theorem orderedInsert_lex (tm : ℕ) (x : ℕ × CatHabit × ℕ) (s : List (ℕ × CatHabit × ℕ))
    (hs : s.Sorted (fun a b => tdiff tm a < tdiff tm b ∨ (tdiff tm a = tdiff tm b ∧ a.1 ≤ b.1)))
    (hlt : ∀ y ∈ s, x.1 < y.1) :
    (List.orderedInsert (fun a b => tdiff tm a ≤ tdiff tm b) x s).Sorted
      (fun a b => tdiff tm a < tdiff tm b ∨ (tdiff tm a = tdiff tm b ∧ a.1 ≤ b.1)) := by
  induction s with
  | nil => simp [List.orderedInsert]
  | cons y s' ih =>
    rw [List.sorted_cons] at hs
    obtain ⟨hy, hs'⟩ := hs
    rw [List.orderedInsert]
    by_cases hxy : tdiff tm x ≤ tdiff tm y
    · rw [if_pos hxy, List.sorted_cons]
      refine ⟨?_, List.sorted_cons.mpr ⟨hy, hs'⟩⟩
      intro b hb
      rcases List.mem_cons.mp hb with rfl | hb'
      · rcases lt_or_eq_of_le hxy with hlt2 | heq
        · exact Or.inl hlt2
        · exact Or.inr ⟨heq, (hlt b (by simp)).le⟩
      · have hyb : tdiff tm y ≤ tdiff tm b := by
          rcases hy b hb' with h | h
          · exact h.le
          · exact h.1.le
        rcases lt_or_eq_of_le (le_trans hxy hyb) with hlt2 | heq
        · exact Or.inl hlt2
        · exact Or.inr ⟨heq, (hlt b (List.mem_cons_of_mem y hb')).le⟩
    · rw [if_neg hxy, List.sorted_cons]
      constructor
      · intro b hb
        rcases (List.mem_orderedInsert _).mp hb with rfl | hb'
        · exact Or.inl (by omega)
        · exact hy b hb'
      · exact ih hs' (fun y2 hy2 => hlt y2 (List.mem_cons_of_mem y hy2))

theorem insertionSort_lex (tm : ℕ) (l : List (ℕ × CatHabit × ℕ))
    (hmono : l.Pairwise (fun a b => a.1 < b.1)) :
    (List.insertionSort (fun a b => tdiff tm a ≤ tdiff tm b) l).Sorted
      (fun a b => tdiff tm a < tdiff tm b ∨ (tdiff tm a = tdiff tm b ∧ a.1 ≤ b.1)) := by
  induction l with
  | nil => simp [List.insertionSort]
  | cons x l ih =>
    rw [List.pairwise_cons] at hmono
    rw [List.insertionSort]
    apply orderedInsert_lex
    · exact ih hmono.2
    · intro y hy
      exact hmono.1 y ((List.perm_insertionSort _ l).mem_iff.mp hy)

theorem enum_idx_mono (l : List CatHabit) :
    l.enum.Pairwise (fun a b => a.1 < b.1) := by
  have h := List.pairwise_lt_range l.length
  rw [← List.enum_map_fst l] at h
  exact List.pairwise_map.mp h

theorem withMinTimes_fst : ∀ (l : List (ℕ × CatHabit)) (l2 : List (ℕ × CatHabit × ℕ)),
    withMinTimes l = some l2 → l2.map (fun q => q.1) = l.map (fun p => p.1) := by
  intro l
  induction l with
  | nil =>
    intro l2 h
    simp only [withMinTimes, Option.some.injEq] at h
    subst h
    rfl
  | cons p rest ih =>
    intro l2 h
    rw [withMinTimes] at h
    cases hmt : min_time_of p.2.time_required with
    | none => rw [hmt] at h; simp at h
    | some mt =>
      rw [hmt] at h
      cases hrest : withMinTimes rest with
      | none => rw [hrest] at h; simp at h
      | some rest2 =>
        rw [hrest] at h
        simp only [Option.some.injEq] at h
        subst h
        simp only [List.map_cons]
        rw [ih rest2 hrest]

theorem timeFiltered_idx_mono (catalog : List CatHabit) (areas : String) (tm : ℕ)
    (cands : List (ℕ × CatHabit × ℕ)) (hf : timeFiltered catalog areas tm = some cands) :
    cands.Pairwise (fun a b => a.1 < b.1) := by
  unfold timeFiltered at hf
  rcases Option.map_eq_some'.mp hf with ⟨l2, hl2, rfl⟩
  have h0 : (filteredByCat catalog areas).Pairwise (fun a b => a.1 < b.1) :=
    List.Pairwise.sublist (List.filter_sublist _) (enum_idx_mono catalog)
  have h1 : l2.Pairwise (fun a b => a.1 < b.1) := by
    have hb : List.Pairwise (fun a b : ℕ => a < b)
        ((filteredByCat catalog areas).map (fun p => p.1)) := List.pairwise_map.mpr h0
    rw [← withMinTimes_fst _ _ hl2] at hb
    exact List.pairwise_map.mp hb
  exact List.Pairwise.sublist (List.filter_sublist _) h1

/-- Claim C7: for any non-empty candidate set surviving the category-and-time
filter, `recommend_habits` returns the first `n` candidates of the candidate
list sorted by `|min_time - committed_minutes|`; the sorted list is a
permutation of the candidates and is ordered by that absolute difference
ascending with ties broken stably by catalog (row-index) order; with
committed minutes 15 and candidate min-times {5, 10, 20} the returned order
is 10, 20, 5. -/
theorem C7_ranking (catalog : List CatHabit) (areas : String) (tm n : ℕ)
    (cands : List (ℕ × CatHabit × ℕ))
    (hf : timeFiltered catalog areas tm = some cands) (hne : cands ≠ []) :
    recommend_habits catalog areas tm n =
      some (((List.insertionSort (fun a b => tdiff tm a ≤ tdiff tm b) cands).take n).map
        (fun q => q.2.1))
    ∧ (List.insertionSort (fun a b => tdiff tm a ≤ tdiff tm b) cands).Perm cands
    ∧ (List.insertionSort (fun a b => tdiff tm a ≤ tdiff tm b) cands).Sorted
        (fun a b => tdiff tm a < tdiff tm b ∨ (tdiff tm a = tdiff tm b ∧ a.1 ≤ b.1))
    ∧ recommend_habits catalogC7 "Продуктивность" 15 5 =
        some [⟨"Продуктивность", "10 минут"⟩, ⟨"Продуктивность", "20 минут"⟩,
              ⟨"Продуктивность", "5 минут"⟩] := by
  refine ⟨?_, List.perm_insertionSort _ _,
    insertionSort_lex tm cands (timeFiltered_idx_mono _ _ _ _ hf), by decide⟩
  unfold recommend_habits
  rw [hf]
  have hlen : ¬ cands.length = 0 := by simpa [List.length_eq_zero] using hne
  simp only [hlen, if_false]

theorem C7_witness :
    recommend_habits catalogC7 "Продуктивность" 15 5 =
      some [⟨"Продуктивность", "10 минут"⟩, ⟨"Продуктивность", "20 минут"⟩,
            ⟨"Продуктивность", "5 минут"⟩] :=
  (C7_ranking catalogC7 "Продуктивность" 15 5
    [(0, ⟨"Продуктивность", "5 минут"⟩, 5), (1, ⟨"Продуктивность", "10 минут"⟩, 10),
     (2, ⟨"Продуктивность", "20 минут"⟩, 20)] (by decide) (by decide)).2.2.2

/-- Claim C8 fails on the code: when the category-and-time filter is empty,
both fallback branches rebind `filtered_habits` to a slice of the raw catalog
that lacks the `min_time` column (added only to the category-filtered copy),
so line 237 (`filtered_habits['min_time'].apply`) raises `KeyError` instead
of returning the fallback rows; the claimed fallback set (rows whose
time-required text contains the committed-minutes number) is non-empty here,
yet nothing is returned. -/
theorem C8_fallback_raises :
    recommend_habits catalogC8 "Продуктивность" 10 5 = none
    ∧ (catalogC8.filter (fun r => containsSub (natToChars 10) r.time_required.toList)).take 5
        = [⟨"Финансы", "10 минут"⟩] :=
  ⟨by decide, by decide⟩

/-- Claim C10 fails on the code: under the users schema created by
`initialize_database` (the one in force — app.py runs it at startup and the
`Database` class is never instantiated), `create_user`'s INSERT names columns
`user_id, name, age, gender, registration_date` that do not exist in the
table, so every call — fresh or duplicate username — raises
`sqlite3.OperationalError`, which is not caught (only `IntegrityError` is):
neither `None` nor a new user id is ever returned. -/
theorem C10_create_user_raises (existing : List String) (username uid : String) :
    create_user existing username uid = .error .operational := rfl
